import Mathlib

/-!
Verification of `BoQsc/bug-linux-screen-corners-edges-slideoff`.

The development shallowly embeds the three Python source files:

* `src/gemini_research_windows/mouse.py` — a fixed-point binary curve decoder
  (`hex_to_decimal`) and the module-level zipping of the two decoded axis
  tables into coordinate pairs (`coordinates`), embedded in namespace
  `MouseCurve`.
* `src/simulator2.py` — the piecewise-linear curve editor (presets, drag
  clamping, selection-batch adjustment, hit testing, device ordering,
  coordinate transforms), embedded in namespace `Simulator2`.
* `src/simulator.py` — the earlier editor variant; only its coordinate
  transforms differ from `simulator2.py` (no margin), embedded in namespace
  `Simulator`.

Python floats are modelled as exact rationals (`ℚ`); all constants involved
(decimal literals with one fractional digit, and divisions by 65536) are
exactly representable, matching the spec's exact-real reading.  Byte tables
are `List ℕ`; selections are `Finset ℕ`; device names are `List Char`.
-/

namespace MouseCurve

/-- `int.from_bytes(bs, byteorder='little', signed=False)`:
little-endian unsigned interpretation of a byte list. -/
def fromBytesLEUnsigned : List ℕ → ℕ
  | [] => 0
  | b :: rest => b + 256 * fromBytesLEUnsigned rest

/-- `int.from_bytes(bs, byteorder='little', signed=True)`:
little-endian two's-complement interpretation over the list's actual width. -/
def fromBytesLESigned (bs : List ℕ) : ℤ :=
  let u := fromBytesLEUnsigned bs
  let m := 256 ^ bs.length
  if 2 * u < m then (u : ℤ) else (u : ℤ) - (m : ℤ)

/-- One loop body of `hex_to_decimal` (mouse.py lines 39–43): for a chunk
`hex_values[i:i+8]`, `integer_part` is the signed LE value of `chunk[2:4]`,
`fractional_part` is the unsigned LE value of `chunk[0:2]` divided by 65536,
and the emitted value is their sum. -/
def decodeRecord (chunk : List ℕ) : ℚ :=
  (fromBytesLESigned ((chunk.drop 2).take 2) : ℚ)
    + (fromBytesLEUnsigned (chunk.take 2) : ℚ) / 65536

/-- `hex_to_decimal` (mouse.py lines 36–44): the loop `for i in
range(0, len(hex_values), 8)` processes the table in 8-byte chunks; Python
slicing makes the final chunk shorter when the length is not a multiple of 8,
and the record is then decoded from the remaining bytes (no error is raised).
The first pattern handles full 8-byte chunks; the catch-all handles a final
short chunk of 1–7 bytes. -/
def hex_to_decimal : List ℕ → List ℚ
  | [] => []
  | a0 :: a1 :: a2 :: a3 :: a4 :: a5 :: a6 :: a7 :: rest =>
      decodeRecord [a0, a1, a2, a3, a4, a5, a6, a7] :: hex_to_decimal rest
  | l => [decodeRecord l]

/-- `coordinates = list(zip(x_points, y_points))` (mouse.py lines 62–65),
abstracted over the two axis byte tables. -/
def coordinates (xb yb : List ℕ) : List (ℚ × ℚ) :=
  (hex_to_decimal xb).zip (hex_to_decimal yb)

/-- Unsigned little-endian 16-bit value of two bytes (spec §4.1 `frac_bytes`). -/
def uint16LE (b0 b1 : ℕ) : ℕ := b0 + 256 * b1

/-- Signed little-endian 16-bit value of two bytes (spec §4.1 `int_bytes`). -/
def sint16LE (b0 b1 : ℕ) : ℤ :=
  if uint16LE b0 b1 < 32768 then (uint16LE b0 b1 : ℤ)
  else (uint16LE b0 b1 : ℤ) - 65536

end MouseCurve

namespace Simulator2

/-- `CANVAS_WIDTH = 500` (simulator2.py line 7). -/
def CANVAS_WIDTH : ℚ := 500

/-- `CANVAS_HEIGHT = 500` (simulator2.py line 8). -/
def CANVAS_HEIGHT : ℚ := 500

/-- `MARGIN = 20` (simulator2.py line 9). -/
def MARGIN : ℚ := 20

/-- `X_MIN = 0.0` (simulator2.py line 10). -/
def X_MIN : ℚ := 0.0

/-- `X_MAX = 1.0` (simulator2.py line 10). -/
def X_MAX : ℚ := 1.0

/-- `Y_MIN = 0.0` (simulator2.py line 11). -/
def Y_MIN : ℚ := 0.0

/-- `Y_MAX = 3.0` (simulator2.py line 11). -/
def Y_MAX : ℚ := 3.0

/-- `POINT_RADIUS = 6` (simulator2.py line 12). -/
def POINT_RADIUS : ℚ := 6

/-- `DELTA_Y = 0.1` (simulator2.py line 13). -/
def DELTA_Y : ℚ := 0.1

/-- `WINDOWS_CURVE` preset (simulator2.py lines 16–21). -/
def WINDOWS_CURVE : List (ℚ × ℚ) := [(0.0, 0.0), (0.3, 0.3), (0.6, 1.2), (1.0, 2.5)]

/-- `to_canvas_coords` (simulator2.py lines 23–29): map function coordinates
to canvas pixel coordinates with padding. -/
def to_canvas_coords (x y : ℚ) : ℚ × ℚ :=
  (MARGIN + (x - X_MIN) / (X_MAX - X_MIN) * (CANVAS_WIDTH - 2 * MARGIN),
   CANVAS_HEIGHT - MARGIN - (y - Y_MIN) / (Y_MAX - Y_MIN) * (CANVAS_HEIGHT - 2 * MARGIN))

/-- `to_function_coords` (simulator2.py lines 31–37): map canvas pixel
coordinates (with padding) back to function coordinates. -/
def to_function_coords (canvas_x canvas_y : ℚ) : ℚ × ℚ :=
  ((canvas_x - MARGIN) / (CANVAS_WIDTH - 2 * MARGIN) * (X_MAX - X_MIN) + X_MIN,
   (CANVAS_HEIGHT - MARGIN - canvas_y) / (CANVAS_HEIGHT - 2 * MARGIN) * (Y_MAX - Y_MIN) + Y_MIN)

/-- `update_curve_from_options` (simulator2.py lines 183–192) as a function of
the three checkbox states; returns the new `self.points`. -/
def update_curve_from_options (use_windows_curve enable_nonlinear_boost
    enable_acceleration_cap : Bool) : List (ℚ × ℚ) :=
  if use_windows_curve then WINDOWS_CURVE
  else
    [(0.0, 0.0),
     if enable_nonlinear_boost then (0.5, 1.5) else (0.5, 0.5),
     if enable_acceleration_cap then (1.0, 2.5) else (1.0, 1.0)]

/-- Loop body of `increase_all_points` (simulator2.py lines 194–199) walked
over the whole point list with its position index; positions in the
selection set (and not excluded by the low-speed lock) get
`min(Y_MAX, y + DELTA_Y)` as new output.  The Python loop iterates over the
selection set and mutates `points[i]` in place; since the per-index updates
are independent, walking the list in order is equivalent. -/
def increase_aux (lock_low_speed : Bool) (selected_indices : Finset ℕ) :
    ℕ → List (ℚ × ℚ) → List (ℚ × ℚ)
  | _, [] => []
  | i, p :: rest =>
      (if i ∈ selected_indices ∧ ¬(i = 0 ∧ lock_low_speed = true)
       then (p.1, min Y_MAX (p.2 + DELTA_Y)) else p)
        :: increase_aux lock_low_speed selected_indices (i + 1) rest

/-- `increase_all_points` (simulator2.py lines 194–199). -/
def increase_all_points (lock_low_speed : Bool) (selected_indices : Finset ℕ)
    (points : List (ℚ × ℚ)) : List (ℚ × ℚ) :=
  increase_aux lock_low_speed selected_indices 0 points

/-- Loop body of `decrease_all_points` (simulator2.py lines 201–206):
selected, unlocked positions get `max(Y_MIN, y - DELTA_Y)` as new output. -/
def decrease_aux (lock_low_speed : Bool) (selected_indices : Finset ℕ) :
    ℕ → List (ℚ × ℚ) → List (ℚ × ℚ)
  | _, [] => []
  | i, p :: rest =>
      (if i ∈ selected_indices ∧ ¬(i = 0 ∧ lock_low_speed = true)
       then (p.1, max Y_MIN (p.2 - DELTA_Y)) else p)
        :: decrease_aux lock_low_speed selected_indices (i + 1) rest

/-- `decrease_all_points` (simulator2.py lines 201–206). -/
def decrease_all_points (lock_low_speed : Bool) (selected_indices : Finset ℕ)
    (points : List (ℚ × ℚ)) : List (ℚ × ℚ) :=
  decrease_aux lock_low_speed selected_indices 0 points

/-- The new x coordinate computed by `on_drag` (simulator2.py lines 308–314):
clamp the proposed x to `[X_MIN, X_MAX]`, then clamp it against the previous
point's x (if any) and the next point's x (if any). -/
def dragNewX (points : List (ℚ × ℚ)) (idx : ℕ) (proposed_x : ℚ) : ℚ :=
  let nx1 := max X_MIN (min X_MAX proposed_x)
  let nx2 := if 0 < idx ∧ nx1 < (points.getD (idx - 1) (0, 0)).1
             then (points.getD (idx - 1) (0, 0)).1 else nx1
  if idx + 1 < points.length ∧ (points.getD (idx + 1) (0, 0)).1 < nx2
  then (points.getD (idx + 1) (0, 0)).1 else nx2

/-- `on_drag` (simulator2.py lines 299–316) as a function of the drag state's
`point_index`, the proposed function coordinates of the dragged point (the
result of `to_function_coords` on the event position plus offset, lines
306–308), the low-speed lock flag, and the point list; returns the new point
list.  `simulator.py` lines 197–212 are the same minus the lock guard
(i.e. the `lock_low_speed = false` instance). -/
def on_drag (lock_low_speed : Bool) (points : List (ℚ × ℚ))
    (point_index : Option ℕ) (proposed_x proposed_y : ℚ) : List (ℚ × ℚ) :=
  match point_index with
  | none => points
  | some idx =>
      if idx = 0 ∧ lock_low_speed = true then points
      else points.set idx (dragNewX points idx proposed_x,
                           max Y_MIN (min Y_MAX proposed_y))

/-- Loop of `find_nearby_point` (simulator2.py lines 270–275) carrying the
running `enumerate` index. -/
def find_nearby_aux (x y : ℚ) : ℕ → List (ℚ × ℚ) → Option ℕ
  | _, [] => none
  | idx, p :: rest =>
      if ((to_canvas_coords p.1 p.2).1 - x) ^ 2
           + ((to_canvas_coords p.1 p.2).2 - y) ^ 2 ≤ POINT_RADIUS ^ 2
      then some idx
      else find_nearby_aux x y (idx + 1) rest

/-- `find_nearby_point` (simulator2.py lines 270–275): first point index whose
canvas position is within `POINT_RADIUS` (squared Euclidean comparison) of
the query position, else `none`. -/
def find_nearby_point (points : List (ℚ × ℚ)) (x y : ℚ) : Option ℕ :=
  find_nearby_aux x y 0 points

/-- The hit condition of `find_nearby_point` at index `i`: the rendered
(canvas) position of point `i` lies within Euclidean distance `POINT_RADIUS`
of the query position (squared form, as in the source). -/
def withinRadius (points : List (ℚ × ℚ)) (i : ℕ) (x y : ℚ) : Prop :=
  ((to_canvas_coords (points.getD i (0, 0)).1 (points.getD i (0, 0)).2).1 - x) ^ 2
    + ((to_canvas_coords (points.getD i (0, 0)).1 (points.getD i (0, 0)).2).2 - y) ^ 2
    ≤ POINT_RADIUS ^ 2

instance (points : List (ℚ × ℚ)) (i : ℕ) (x y : ℚ) :
    Decidable (withinRadius points i x y) := by
  unfold withinRadius; infer_instance

/-- The monotonic-input invariant: point inputs are non-decreasing across all
adjacent index pairs. -/
def sortedInputs (points : List (ℚ × ℚ)) : Prop :=
  ∀ i : Fin (points.length - 1),
    (points.getD i.1 (0, 0)).1 ≤ (points.getD (i.1 + 1) (0, 0)).1

instance (points : List (ℚ × ℚ)) : Decidable (sortedInputs points) := by
  unfold sortedInputs; infer_instance

/-- The bounds invariant: every point's input lies in `[X_MIN, X_MAX]` and
its output in `[Y_MIN, Y_MAX]`. -/
def inBounds (points : List (ℚ × ℚ)) : Prop :=
  ∀ p ∈ points, X_MIN ≤ p.1 ∧ p.1 ≤ X_MAX ∧ Y_MIN ≤ p.2 ∧ p.2 ≤ Y_MAX

instance (points : List (ℚ × ℚ)) : Decidable (inBounds points) := by
  unfold inBounds; infer_instance

/-- `name.lower()` on a device name. -/
def lowerName (s : List Char) : List Char := s.map Char.toLower

/-- Python's `pat in name.lower()`: substring test on the lowercased name. -/
def nameHas (s pat : List Char) : Bool := decide (pat <:+: lowerName s)

/-- `device_priority` (simulator2.py lines 148–157): first-match priority
class of a device name — `"usb"` 1, else `"mouse"` 2, else `"optical"` 3,
else 100. -/
def device_priority (name : List Char) : ℕ :=
  if nameHas name ['u', 's', 'b'] then 1
  else if nameHas name ['m', 'o', 'u', 's', 'e'] then 2
  else if nameHas name ['o', 'p', 't', 'i', 'c', 'a', 'l'] then 3
  else 100

/-- The filter of `get_pointer_devices` (simulator2.py line 158): the name
contains `"mouse"` or `"touchpad"`, case-insensitively. -/
def isPointerDevice (name : List Char) : Bool :=
  nameHas name ['m', 'o', 'u', 's', 'e'] || nameHas name ['t', 'o', 'u', 'c', 'h', 'p', 'a', 'd']

/-- Stable insertion of `a` after all already-placed elements of key ≤ its
own key; building block for the stable sort-by-key below. -/
def insertStable (key : List Char → ℕ) (a : List Char) :
    List (List Char) → List (List Char)
  | [] => [a]
  | b :: l => if key b ≤ key a then b :: insertStable key a l else a :: b :: l

/-- Python's `list.sort(key=...)` (simulator2.py line 159) is specified as a
stable ascending sort by key; modelled as left-to-right stable insertion. -/
def sortStable (key : List Char → ℕ) (l : List (List Char)) : List (List Char) :=
  l.foldl (fun acc a => insertStable key a acc) []

/-- `get_pointer_devices` (simulator2.py lines 142–163) as a function of the
device-name list returned by the external `xinput` call: filter to pointer
device names, then stable-sort by `device_priority`. -/
def get_pointer_devices (devices : List (List Char)) : List (List Char) :=
  sortStable device_priority (devices.filter (fun d => isPointerDevice d))

end Simulator2

namespace Simulator

/-- `CANVAS_WIDTH = 500` (simulator.py line 7). -/
def CANVAS_WIDTH : ℚ := 500

/-- `CANVAS_HEIGHT = 500` (simulator.py line 8). -/
def CANVAS_HEIGHT : ℚ := 500

/-- `X_MIN, X_MAX` (simulator.py line 9). -/
def X_MIN : ℚ := 0.0

/-- `X_MAX` (simulator.py line 9). -/
def X_MAX : ℚ := 1.0

/-- `Y_MIN` (simulator.py line 10). -/
def Y_MIN : ℚ := 0.0

/-- `Y_MAX` (simulator.py line 10). -/
def Y_MAX : ℚ := 3.0

/-- `to_canvas_coords` (simulator.py lines 24–28): no margin. -/
def to_canvas_coords (x y : ℚ) : ℚ × ℚ :=
  ((x - X_MIN) / (X_MAX - X_MIN) * CANVAS_WIDTH,
   CANVAS_HEIGHT - (y - Y_MIN) / (Y_MAX - Y_MIN) * CANVAS_HEIGHT)

/-- `to_function_coords` (simulator.py lines 30–34). -/
def to_function_coords (canvas_x canvas_y : ℚ) : ℚ × ℚ :=
  (canvas_x / CANVAS_WIDTH * (X_MAX - X_MIN) + X_MIN,
   (CANVAS_HEIGHT - canvas_y) / CANVAS_HEIGHT * (Y_MAX - Y_MIN) + Y_MIN)

end Simulator

namespace MouseCurve

theorem fromBytesLEUnsigned_pair (b0 b1 : ℕ) :
    fromBytesLEUnsigned [b0, b1] = uint16LE b0 b1 := by
  simp [fromBytesLEUnsigned, uint16LE]

theorem fromBytesLESigned_pair (b0 b1 : ℕ) :
    fromBytesLESigned [b0, b1] = sint16LE b0 b1 := by
  unfold fromBytesLESigned sint16LE
  rw [fromBytesLEUnsigned_pair]
  simp only [List.length_cons, List.length_nil]
  norm_num
  split_ifs <;> omega

theorem cons8_of_length {T : List ℕ} (h : 8 ≤ T.length) :
    ∃ a0 a1 a2 a3 a4 a5 a6 a7 rest,
      T = a0 :: a1 :: a2 :: a3 :: a4 :: a5 :: a6 :: a7 :: rest := by
  rcases T with _ | ⟨a0, T⟩; · simp at h
  rcases T with _ | ⟨a1, T⟩; · simp at h
  rcases T with _ | ⟨a2, T⟩; · simp at h
  rcases T with _ | ⟨a3, T⟩; · simp at h
  rcases T with _ | ⟨a4, T⟩; · simp at h
  rcases T with _ | ⟨a5, T⟩; · simp at h
  rcases T with _ | ⟨a6, T⟩; · simp at h
  rcases T with _ | ⟨a7, T⟩; · simp at h
  exact ⟨a0, a1, a2, a3, a4, a5, a6, a7, T, rfl⟩

theorem getD_cons8 (a0 a1 a2 a3 a4 a5 a6 a7 : ℕ) (l : List ℕ) (k : ℕ) :
    (a0 :: a1 :: a2 :: a3 :: a4 :: a5 :: a6 :: a7 :: l).getD (k + 8) 0 = l.getD k 0 := by
  have h : k + 8 = (((((((k + 1) + 1) + 1) + 1) + 1) + 1) + 1) + 1 := by omega
  rw [h]; simp [List.getD_cons_succ]

theorem decodeRecord_eight (a0 a1 a2 a3 a4 a5 a6 a7 : ℕ) :
    decodeRecord [a0, a1, a2, a3, a4, a5, a6, a7]
      = (sint16LE a2 a3 : ℚ) + (uint16LE a0 a1 : ℚ) / 65536 := by
  simp [decodeRecord, fromBytesLESigned_pair, fromBytesLEUnsigned_pair]

/-- The decoder always emits one value per (possibly short, trailing) 8-byte
chunk: `⌈length / 8⌉` values in total, for tables of any length. -/
theorem hex_to_decimal_length : ∀ (T : List ℕ),
    (hex_to_decimal T).length = (T.length + 7) / 8 := by
  intro T
  induction T using hex_to_decimal.induct with
  | case1 => simp [hex_to_decimal]
  | case2 a0 a1 a2 a3 a4 a5 a6 a7 rest ih =>
      simp [hex_to_decimal, ih]; omega
  | case3 l h1 h2 =>
      have hne : l ≠ [] := fun hh => h1 hh
      have hpos : 0 < l.length := List.length_pos.mpr hne
      have hlt : l.length < 8 := by
        by_contra hh
        push_neg at hh
        obtain ⟨a0, a1, a2, a3, a4, a5, a6, a7, rest, rfl⟩ := cons8_of_length hh
        exact h2 a0 a1 a2 a3 a4 a5 a6 a7 rest rfl
      rw [hex_to_decimal]
      · simp; omega
      · exact h1
      · exact h2

/-- Value of record `i` of a table of length `8 * n`: the signed 16-bit
little-endian integer at bytes `[8i+2, 8i+4)` plus the unsigned 16-bit
little-endian value at bytes `[8i, 8i+2)` divided by 65536. -/
theorem hex_to_decimal_getD_mul8 : ∀ (n : ℕ) (T : List ℕ), T.length = 8 * n →
    ∀ i, i < n → (hex_to_decimal T).getD i 0 =
      (sint16LE (T.getD (8 * i + 2) 0) (T.getD (8 * i + 3) 0) : ℚ)
        + (uint16LE (T.getD (8 * i) 0) (T.getD (8 * i + 1) 0) : ℚ) / 65536 := by
  intro n
  induction n with
  | zero => intro T hT i hi; omega
  | succ n ih =>
      intro T hT i hi
      obtain ⟨a0, a1, a2, a3, a4, a5, a6, a7, rest, rfl⟩ :=
        cons8_of_length (T := T) (by omega)
      have hrest : rest.length = 8 * n := by simp at hT; omega
      cases i with
      | zero =>
          simp only [hex_to_decimal, List.getD_cons_zero, decodeRecord_eight]
          norm_num
      | succ i =>
          have e0 : 8 * (i + 1) = 8 * i + 8 := by ring
          rw [e0]
          have e1 : 8 * i + 8 + 1 = (8 * i + 1) + 8 := by ring
          have e2 : 8 * i + 8 + 2 = (8 * i + 2) + 8 := by ring
          have e3 : 8 * i + 8 + 3 = (8 * i + 3) + 8 := by ring
          rw [e1, e2, e3, getD_cons8, getD_cons8, getD_cons8, getD_cons8]
          simp only [hex_to_decimal, List.getD_cons_succ]
          exact ih rest hrest i (by omega)

end MouseCurve

/-- C1: for every byte table of length `8 * n`, `hex_to_decimal` returns
exactly `n` values in record order; the value of record `i` equals the signed
little-endian 16-bit integer at bytes `[8i+2, 8i+4)` plus the unsigned
little-endian 16-bit value at bytes `[8i, 8i+2)` divided by 65536 — hence it
depends only on bytes `[8i, 8i+4)` and never on the 4 padding bytes.  In
particular the record `15 6e 00 00 00 00 00 00` decodes to `0x6e15 / 65536`
and the record `00 40 01 00 00 00 00 00` decodes to `1.25`. -/
theorem C1_decoder_records (T : List ℕ) (n : ℕ) (hT : T.length = 8 * n) :
    ((MouseCurve.hex_to_decimal T).length = n ∧
      ∀ i, i < n → (MouseCurve.hex_to_decimal T).getD i 0 =
        (MouseCurve.sint16LE (T.getD (8 * i + 2) 0) (T.getD (8 * i + 3) 0) : ℚ)
          + (MouseCurve.uint16LE (T.getD (8 * i) 0) (T.getD (8 * i + 1) 0) : ℚ) / 65536) ∧
    MouseCurve.hex_to_decimal [0x15, 0x6e, 0x00, 0x00, 0x00, 0x00, 0x00, 0x00]
      = [0x6e15 / 65536] ∧
    MouseCurve.hex_to_decimal [0x00, 0x40, 0x01, 0x00, 0x00, 0x00, 0x00, 0x00]
      = [1.25] := by
  refine ⟨⟨?_, MouseCurve.hex_to_decimal_getD_mul8 n T hT⟩, ?_, ?_⟩
  · rw [MouseCurve.hex_to_decimal_length]; omega
  · norm_num [MouseCurve.hex_to_decimal, MouseCurve.decodeRecord,
      MouseCurve.fromBytesLESigned, MouseCurve.fromBytesLEUnsigned]
  · norm_num [MouseCurve.hex_to_decimal, MouseCurve.decodeRecord,
      MouseCurve.fromBytesLESigned, MouseCurve.fromBytesLEUnsigned]

/-- Witness for C1 at the known 8-byte vector `00 40 01 00 00 00 00 00`. -/
theorem C1_decoder_records_witness :
    ([0x00, 0x40, 0x01, 0x00, 0x00, 0x00, 0x00, 0x00] : List ℕ).length = 8 * 1 ∧
      (MouseCurve.hex_to_decimal [0x00, 0x40, 0x01, 0x00, 0x00, 0x00, 0x00, 0x00]).length = 1 :=
  ⟨by decide, (C1_decoder_records _ 1 (by decide)).1.1⟩

/-- C3 counterexample: the byte table `[0x15]` has length 1 — not a multiple
of 8 — yet `hex_to_decimal` does not fail: it returns the value list
`[0x15 / 65536]` (Python slicing truncates the final chunk and
`int.from_bytes` accepts short or empty slices; no `DecodeError` exists in
the code). -/
theorem C3_counterexample :
    ¬ 8 ∣ ([0x15] : List ℕ).length ∧
      MouseCurve.hex_to_decimal [0x15] = [0x15 / 65536] := by
  constructor
  · decide
  · norm_num [MouseCurve.hex_to_decimal, MouseCurve.decodeRecord,
      MouseCurve.fromBytesLESigned, MouseCurve.fromBytesLEUnsigned]

/-- C3 amended: on a byte table whose length is not a multiple of 8,
`hex_to_decimal` does not fail; it returns `length / 8 + 1` values, the last
decoded from the trailing short chunk. -/
theorem C3_amended (T : List ℕ) (h : ¬ 8 ∣ T.length) :
    (MouseCurve.hex_to_decimal T).length = T.length / 8 + 1 := by
  rw [MouseCurve.hex_to_decimal_length]; omega

/-- Witness for the amended C3 at the length-1 table `[0x15]`. -/
theorem C3_amended_witness :
    ¬ 8 ∣ ([0x15] : List ℕ).length ∧
      (MouseCurve.hex_to_decimal [0x15]).length = 1 :=
  ⟨by decide, C3_amended [0x15] (by decide)⟩

/-- C4 counterexample: an X table decoding to 2 values and a Y table decoding
to 1 value; the zipping step (`list(zip(x_points, y_points))`) raises no
`MismatchedLengthError` — it silently truncates to 1 coordinate pair. -/
theorem C4_counterexample :
    (MouseCurve.hex_to_decimal
        [0, 0, 1, 0, 0, 0, 0, 0, 0, 0, 2, 0, 0, 0, 0, 0]).length = 2 ∧
    (MouseCurve.hex_to_decimal [0, 0, 3, 0, 0, 0, 0, 0]).length = 1 ∧
    MouseCurve.coordinates [0, 0, 1, 0, 0, 0, 0, 0, 0, 0, 2, 0, 0, 0, 0, 0]
        [0, 0, 3, 0, 0, 0, 0, 0] = [(1, 3)] := by
  refine ⟨?_, ?_, ?_⟩ <;>
    norm_num [MouseCurve.coordinates, MouseCurve.hex_to_decimal,
      MouseCurve.decodeRecord, MouseCurve.fromBytesLESigned,
      MouseCurve.fromBytesLEUnsigned, List.zip_cons_cons, List.zip_nil_right]

/-- C4 amended: the zipping step never fails; it pairs the two decoded
sequences index-wise, truncating to the shorter one — `min n m` pairs, and in
particular exactly `n` pairs when both sequences have length `n`. -/
theorem C4_amended (xb yb : List ℕ) :
    (MouseCurve.coordinates xb yb).length
        = min (MouseCurve.hex_to_decimal xb).length
            (MouseCurve.hex_to_decimal yb).length ∧
    ∀ i, i < (MouseCurve.coordinates xb yb).length →
      (MouseCurve.coordinates xb yb).getD i (0, 0)
        = ((MouseCurve.hex_to_decimal xb).getD i 0,
           (MouseCurve.hex_to_decimal yb).getD i 0) := by
  constructor
  · simp [MouseCurve.coordinates]
  · intro i hi
    have hlen : i < min (MouseCurve.hex_to_decimal xb).length
        (MouseCurve.hex_to_decimal yb).length := by
      simpa [MouseCurve.coordinates] using hi
    have h1 : i < (MouseCurve.hex_to_decimal xb).length := lt_of_lt_of_le hlen (min_le_left _ _)
    have h2 : i < (MouseCurve.hex_to_decimal yb).length := lt_of_lt_of_le hlen (min_le_right _ _)
    rw [List.getD_eq_getElem _ _ hi, List.getD_eq_getElem _ _ h1, List.getD_eq_getElem _ _ h2]
    simp only [MouseCurve.coordinates]
    exact List.getElem_zip

/-- Witness for the amended C4 at a concrete pair of tables of decoded
lengths 2 and 1. -/
theorem C4_amended_witness :
    (MouseCurve.coordinates [0, 0, 1, 0, 0, 0, 0, 0, 0, 0, 2, 0, 0, 0, 0, 0]
        [0, 0, 3, 0, 0, 0, 0, 0]).getD 0 (0, 0)
      = ((MouseCurve.hex_to_decimal
            [0, 0, 1, 0, 0, 0, 0, 0, 0, 0, 2, 0, 0, 0, 0, 0]).getD 0 0,
         (MouseCurve.hex_to_decimal [0, 0, 3, 0, 0, 0, 0, 0]).getD 0 0) :=
  (C4_amended _ _).2 0 (by
    norm_num [MouseCurve.coordinates, MouseCurve.hex_to_decimal,
      MouseCurve.decodeRecord, MouseCurve.fromBytesLESigned,
      MouseCurve.fromBytesLEUnsigned, List.zip_cons_cons, List.zip_nil_right])

/-- C5: the Windows-like preset yields exactly the four points
`(0,0),(0.3,0.3),(0.6,1.2),(1,2.5)` regardless of the boost and cap flags;
with Windows off and both flags off the result is `(0,0),(0.5,0.5),(1,1)`;
with Windows off and both flags on it is `(0,0),(0.5,1.5),(1,2.5)`; and the
flags act independently (boost alone raises only the mid point, cap alone
only the high point). -/
theorem C5_presets :
    (∀ boost cap : Bool, Simulator2.update_curve_from_options true boost cap
        = [(0.0, 0.0), (0.3, 0.3), (0.6, 1.2), (1.0, 2.5)]) ∧
    Simulator2.update_curve_from_options false false false
      = [(0.0, 0.0), (0.5, 0.5), (1.0, 1.0)] ∧
    Simulator2.update_curve_from_options false true true
      = [(0.0, 0.0), (0.5, 1.5), (1.0, 2.5)] ∧
    Simulator2.update_curve_from_options false true false
      = [(0.0, 0.0), (0.5, 1.5), (1.0, 1.0)] ∧
    Simulator2.update_curve_from_options false false true
      = [(0.0, 0.0), (0.5, 0.5), (1.0, 2.5)] := by
  refine ⟨fun boost cap => ?_, ?_, ?_, ?_, ?_⟩ <;>
    norm_num [Simulator2.update_curve_from_options, Simulator2.WINDOWS_CURVE]

/-- C10: the two coordinate transforms are mutually inverse in exact
rational arithmetic, in both editor variants; hence a drag that proposes the
unchanged canvas position maps back to the unchanged function coordinates. -/
theorem C10_transforms_inverse (x y cx cy : ℚ) :
    Simulator2.to_function_coords (Simulator2.to_canvas_coords x y).1
        (Simulator2.to_canvas_coords x y).2 = (x, y) ∧
    Simulator2.to_canvas_coords (Simulator2.to_function_coords cx cy).1
        (Simulator2.to_function_coords cx cy).2 = (cx, cy) ∧
    Simulator.to_function_coords (Simulator.to_canvas_coords x y).1
        (Simulator.to_canvas_coords x y).2 = (x, y) ∧
    Simulator.to_canvas_coords (Simulator.to_function_coords cx cy).1
        (Simulator.to_function_coords cx cy).2 = (cx, cy) := by
  refine ⟨?_, ?_, ?_, ?_⟩ <;>
    · simp only [Simulator2.to_canvas_coords, Simulator2.to_function_coords,
        Simulator2.CANVAS_WIDTH, Simulator2.CANVAS_HEIGHT, Simulator2.MARGIN,
        Simulator2.X_MIN, Simulator2.X_MAX, Simulator2.Y_MIN, Simulator2.Y_MAX,
        Simulator.to_canvas_coords, Simulator.to_function_coords,
        Simulator.CANVAS_WIDTH, Simulator.CANVAS_HEIGHT,
        Simulator.X_MIN, Simulator.X_MAX, Simulator.Y_MIN, Simulator.Y_MAX,
        Prod.mk.injEq]
      constructor <;> ring

namespace Simulator2

theorem increase_aux_getD (lock : Bool) (sel : Finset ℕ) :
    ∀ (pts : List (ℚ × ℚ)) (k j : ℕ), j < pts.length →
      (increase_aux lock sel k pts).getD j (0, 0) =
        if (k + j) ∈ sel ∧ ¬(k + j = 0 ∧ lock = true)
        then ((pts.getD j (0, 0)).1, min Y_MAX ((pts.getD j (0, 0)).2 + DELTA_Y))
        else pts.getD j (0, 0) := by
  intro pts
  induction pts with
  | nil => intro k j h; simp at h
  | cons p rest ih =>
      intro k j hj
      cases j with
      | zero => simp [increase_aux]
      | succ j =>
          simp only [increase_aux, List.getD_cons_succ]
          have e : k + (j + 1) = (k + 1) + j := by omega
          rw [e]
          exact ih (k + 1) j (by simpa using hj)

theorem decrease_aux_getD (lock : Bool) (sel : Finset ℕ) :
    ∀ (pts : List (ℚ × ℚ)) (k j : ℕ), j < pts.length →
      (decrease_aux lock sel k pts).getD j (0, 0) =
        if (k + j) ∈ sel ∧ ¬(k + j = 0 ∧ lock = true)
        then ((pts.getD j (0, 0)).1, max Y_MIN ((pts.getD j (0, 0)).2 - DELTA_Y))
        else pts.getD j (0, 0) := by
  intro pts
  induction pts with
  | nil => intro k j h; simp at h
  | cons p rest ih =>
      intro k j hj
      cases j with
      | zero => simp [decrease_aux]
      | succ j =>
          simp only [decrease_aux, List.getD_cons_succ]
          have e : k + (j + 1) = (k + 1) + j := by omega
          rw [e]
          exact ih (k + 1) j (by simpa using hj)

end Simulator2

/-- C6: `increase_all_points` / `decrease_all_points` add `±DELTA_Y = ±0.1`
to the output of every point whose index is selected and not excluded by the
lock policy, with the result clamped to `[Y_MIN, Y_MAX] = [0, 3]` (given the
bounds invariant on the outputs); in particular increasing selection `{1}` on
`[(0,0),(0.5,0.5),(1,1)]` sets point 1's output to `0.6`, and once a selected
point's output is `3` a further increase leaves it at `3`. -/
theorem C6_adjust_selected (lock : Bool) (sel : Finset ℕ) (pts : List (ℚ × ℚ))
    (hy : ∀ p ∈ pts, Simulator2.Y_MIN ≤ p.2 ∧ p.2 ≤ Simulator2.Y_MAX) :
    (∀ j, j < pts.length →
      (Simulator2.increase_all_points lock sel pts).getD j (0, 0) =
        if j ∈ sel ∧ ¬(j = 0 ∧ lock = true)
        then ((pts.getD j (0, 0)).1,
          max Simulator2.Y_MIN
            (min Simulator2.Y_MAX ((pts.getD j (0, 0)).2 + Simulator2.DELTA_Y)))
        else pts.getD j (0, 0)) ∧
    (∀ j, j < pts.length →
      (Simulator2.decrease_all_points lock sel pts).getD j (0, 0) =
        if j ∈ sel ∧ ¬(j = 0 ∧ lock = true)
        then ((pts.getD j (0, 0)).1,
          max Simulator2.Y_MIN
            (min Simulator2.Y_MAX ((pts.getD j (0, 0)).2 - Simulator2.DELTA_Y)))
        else pts.getD j (0, 0)) ∧
    Simulator2.increase_all_points false {1} [(0.0, 0.0), (0.5, 0.5), (1.0, 1.0)]
      = [(0.0, 0.0), (0.5, 0.6), (1.0, 1.0)] ∧
    Simulator2.increase_all_points false {1} [(0.0, 0.0), (0.5, 3.0), (1.0, 1.0)]
      = [(0.0, 0.0), (0.5, 3.0), (1.0, 1.0)] := by
  refine ⟨?_, ?_, ?_, ?_⟩
  · intro j hj
    rw [Simulator2.increase_all_points, Simulator2.increase_aux_getD lock sel pts 0 j hj]
    simp only [Nat.zero_add]
    by_cases hc : j ∈ sel ∧ ¬(j = 0 ∧ lock = true)
    · rw [if_pos hc, if_pos hc]
      have hmem : pts.getD j (0, 0) ∈ pts := by
        rw [List.getD_eq_getElem _ _ hj]; exact List.getElem_mem hj
      obtain ⟨hy1, hy2⟩ := hy _ hmem
      have hmx : max Simulator2.Y_MIN
          (min Simulator2.Y_MAX ((pts.getD j (0, 0)).2 + Simulator2.DELTA_Y))
          = min Simulator2.Y_MAX ((pts.getD j (0, 0)).2 + Simulator2.DELTA_Y) := by
        apply max_eq_right
        apply le_min
        · norm_num [Simulator2.Y_MIN, Simulator2.Y_MAX]
        · norm_num [Simulator2.Y_MIN, Simulator2.DELTA_Y] at hy1 ⊢
          linarith
      rw [hmx]
    · rw [if_neg hc, if_neg hc]
  · intro j hj
    rw [Simulator2.decrease_all_points, Simulator2.decrease_aux_getD lock sel pts 0 j hj]
    simp only [Nat.zero_add]
    by_cases hc : j ∈ sel ∧ ¬(j = 0 ∧ lock = true)
    · rw [if_pos hc, if_pos hc]
      have hmem : pts.getD j (0, 0) ∈ pts := by
        rw [List.getD_eq_getElem _ _ hj]; exact List.getElem_mem hj
      obtain ⟨hy1, hy2⟩ := hy _ hmem
      have hmn : min Simulator2.Y_MAX ((pts.getD j (0, 0)).2 - Simulator2.DELTA_Y)
          = (pts.getD j (0, 0)).2 - Simulator2.DELTA_Y := by
        apply min_eq_right
        norm_num [Simulator2.Y_MAX, Simulator2.DELTA_Y] at hy2 ⊢
        linarith
      rw [hmn]
    · rw [if_neg hc, if_neg hc]
  · norm_num [Simulator2.increase_all_points, Simulator2.increase_aux,
      Simulator2.Y_MAX, Simulator2.DELTA_Y, min_def]
  · norm_num [Simulator2.increase_all_points, Simulator2.increase_aux,
      Simulator2.Y_MAX, Simulator2.DELTA_Y, min_def]

/-- Witness for C6 on the concrete baseline curve with selection `{1}`. -/
theorem C6_adjust_selected_witness :
    (∀ p ∈ [((0.0 : ℚ), (0.0 : ℚ)), (0.5, 0.5), (1.0, 1.0)],
        Simulator2.Y_MIN ≤ p.2 ∧ p.2 ≤ Simulator2.Y_MAX) ∧
    Simulator2.increase_all_points false {1} [(0.0, 0.0), (0.5, 0.5), (1.0, 1.0)]
      = [(0.0, 0.0), (0.5, 0.6), (1.0, 1.0)] := by
  constructor
  · intro p hp
    fin_cases hp <;> norm_num [Simulator2.Y_MIN, Simulator2.Y_MAX]
  · exact (C6_adjust_selected false {1} [(0.0, 0.0), (0.5, 0.5), (1.0, 1.0)]
      (by intro p hp
          fin_cases hp <;> norm_num [Simulator2.Y_MIN, Simulator2.Y_MAX])).2.2.1

/-- C7: when the low-speed lock flag is set, point 0 is never mutated — a
drag targeting index 0 returns the point list unchanged, and the batch
increase/decrease operations leave point 0 as it was, for every selection
set, proposed coordinate and delta direction. -/
theorem C7_locked_point_unchanged (pts : List (ℚ × ℚ)) (sel : Finset ℕ)
    (px py : ℚ) :
    Simulator2.on_drag true pts (some 0) px py = pts ∧
    (Simulator2.increase_all_points true sel pts).getD 0 (0, 0) = pts.getD 0 (0, 0) ∧
    (Simulator2.decrease_all_points true sel pts).getD 0 (0, 0) = pts.getD 0 (0, 0) := by
  refine ⟨by simp [Simulator2.on_drag], ?_, ?_⟩
  · cases pts with
    | nil => simp [Simulator2.increase_all_points, Simulator2.increase_aux]
    | cons p rest => simp [Simulator2.increase_all_points, Simulator2.increase_aux]
  · cases pts with
    | nil => simp [Simulator2.decrease_all_points, Simulator2.decrease_aux]
    | cons p rest => simp [Simulator2.decrease_all_points, Simulator2.decrease_aux]

namespace Simulator2

theorem getD_set_self (l : List (ℚ × ℚ)) (i : ℕ) (v d : ℚ × ℚ) (h : i < l.length) :
    (l.set i v).getD i d = v := by
  rw [List.getD_eq_getElem _ _ (by simpa using h)]
  simp [List.getElem_set, h]

theorem getD_set_ne (l : List (ℚ × ℚ)) (i j : ℕ) (v d : ℚ × ℚ) (h : j ≠ i) :
    (l.set i v).getD j d = l.getD j d := by
  by_cases hj : j < l.length
  · rw [List.getD_eq_getElem _ _ (by simpa using hj), List.getD_eq_getElem _ _ hj]
    simp [List.getElem_set, h.symm]
  · rw [List.getD_eq_default _ _ (by simpa using (Nat.le_of_not_lt hj)),
        List.getD_eq_default _ _ (Nat.le_of_not_lt hj)]

theorem sortedInputs_getD {pts : List (ℚ × ℚ)} (hs : sortedInputs pts)
    (i : ℕ) (h : i + 1 < pts.length) :
    (pts.getD i (0, 0)).1 ≤ (pts.getD (i + 1) (0, 0)).1 := hs ⟨i, by omega⟩

theorem inBounds_getD {pts : List (ℚ × ℚ)} (hb : inBounds pts)
    (i : ℕ) (h : i < pts.length) :
    X_MIN ≤ (pts.getD i (0, 0)).1 ∧ (pts.getD i (0, 0)).1 ≤ X_MAX ∧
      Y_MIN ≤ (pts.getD i (0, 0)).2 ∧ (pts.getD i (0, 0)).2 ≤ Y_MAX := by
  rw [List.getD_eq_getElem _ _ h]
  exact hb _ (List.getElem_mem h)

theorem dragNewX_le_next (pts : List (ℚ × ℚ)) (idx : ℕ) (px : ℚ)
    (h1 : idx + 1 < pts.length) :
    dragNewX pts idx px ≤ (pts.getD (idx + 1) (0, 0)).1 := by
  simp only [dragNewX]
  by_cases c1 : 0 < idx ∧ max X_MIN (min X_MAX px) < (pts.getD (idx - 1) (0, 0)).1
  · rw [if_pos c1]
    by_cases c3 : idx + 1 < pts.length ∧
        (pts.getD (idx + 1) (0, 0)).1 < (pts.getD (idx - 1) (0, 0)).1
    · rw [if_pos c3]
    · rw [if_neg c3]
      rcases not_and_or.mp c3 with hcl | hlt
      · exact absurd h1 hcl
      · exact le_of_not_lt hlt
  · rw [if_neg c1]
    by_cases c3 : idx + 1 < pts.length ∧
        (pts.getD (idx + 1) (0, 0)).1 < max X_MIN (min X_MAX px)
    · rw [if_pos c3]
    · rw [if_neg c3]
      rcases not_and_or.mp c3 with hcl | hlt
      · exact absurd h1 hcl
      · exact le_of_not_lt hlt

theorem dragNewX_ge_prev (pts : List (ℚ × ℚ)) (idx : ℕ) (px : ℚ)
    (hs : sortedInputs pts) (h0 : 0 < idx) :
    (pts.getD (idx - 1) (0, 0)).1 ≤ dragNewX pts idx px := by
  simp only [dragNewX]
  by_cases c1 : 0 < idx ∧ max X_MIN (min X_MAX px) < (pts.getD (idx - 1) (0, 0)).1
  · rw [if_pos c1]
    by_cases c3 : idx + 1 < pts.length ∧
        (pts.getD (idx + 1) (0, 0)).1 < (pts.getD (idx - 1) (0, 0)).1
    · rw [if_pos c3]
      have ha : (pts.getD (idx - 1) (0, 0)).1 ≤ (pts.getD (idx - 1 + 1) (0, 0)).1 :=
        sortedInputs_getD hs (idx - 1) (by omega)
      have hb2 : (pts.getD idx (0, 0)).1 ≤ (pts.getD (idx + 1) (0, 0)).1 :=
        sortedInputs_getD hs idx c3.1
      have he : idx - 1 + 1 = idx := by omega
      rw [he] at ha
      linarith
    · rw [if_neg c3]
  · rw [if_neg c1]
    have hple : (pts.getD (idx - 1) (0, 0)).1 ≤ max X_MIN (min X_MAX px) := by
      rcases not_and_or.mp c1 with hcl | hlt
      · exact absurd h0 hcl
      · exact le_of_not_lt hlt
    by_cases c3 : idx + 1 < pts.length ∧
        (pts.getD (idx + 1) (0, 0)).1 < max X_MIN (min X_MAX px)
    · rw [if_pos c3]
      have ha : (pts.getD (idx - 1) (0, 0)).1 ≤ (pts.getD (idx - 1 + 1) (0, 0)).1 :=
        sortedInputs_getD hs (idx - 1) (by omega)
      have hb2 : (pts.getD idx (0, 0)).1 ≤ (pts.getD (idx + 1) (0, 0)).1 :=
        sortedInputs_getD hs idx c3.1
      have he : idx - 1 + 1 = idx := by omega
      rw [he] at ha
      linarith
    · rw [if_neg c3]
      exact hple

theorem dragNewX_bounds (pts : List (ℚ × ℚ)) (idx : ℕ) (px : ℚ)
    (hb : inBounds pts) (hidx : idx < pts.length) :
    X_MIN ≤ dragNewX pts idx px ∧ dragNewX pts idx px ≤ X_MAX := by
  have hx1 : X_MIN ≤ max X_MIN (min X_MAX px) := le_max_left _ _
  have hx2 : max X_MIN (min X_MAX px) ≤ X_MAX :=
    max_le (by norm_num [X_MIN, X_MAX]) (min_le_left _ _)
  have hprev := inBounds_getD hb (idx - 1) (by omega)
  simp only [dragNewX]
  by_cases c1 : 0 < idx ∧ max X_MIN (min X_MAX px) < (pts.getD (idx - 1) (0, 0)).1
  · rw [if_pos c1]
    by_cases c3 : idx + 1 < pts.length ∧
        (pts.getD (idx + 1) (0, 0)).1 < (pts.getD (idx - 1) (0, 0)).1
    · rw [if_pos c3]
      have hnext := inBounds_getD hb (idx + 1) c3.1
      exact ⟨hnext.1, hnext.2.1⟩
    · rw [if_neg c3]
      exact ⟨hprev.1, hprev.2.1⟩
  · rw [if_neg c1]
    by_cases c3 : idx + 1 < pts.length ∧
        (pts.getD (idx + 1) (0, 0)).1 < max X_MIN (min X_MAX px)
    · rw [if_pos c3]
      have hnext := inBounds_getD hb (idx + 1) c3.1
      exact ⟨hnext.1, hnext.2.1⟩
    · rw [if_neg c3]
      exact ⟨hx1, hx2⟩

theorem on_drag_set_invariant (pts : List (ℚ × ℚ)) (idx : ℕ) (px py : ℚ)
    (hs : sortedInputs pts) (hb : inBounds pts) :
    sortedInputs (pts.set idx (dragNewX pts idx px, max Y_MIN (min Y_MAX py))) ∧
      inBounds (pts.set idx (dragNewX pts idx px, max Y_MIN (min Y_MAX py))) := by
  by_cases hidx : idx < pts.length
  case neg =>
    rw [List.set_eq_of_length_le (by omega)]
    exact ⟨hs, hb⟩
  case pos =>
    constructor
    · intro j
      obtain ⟨j, hj⟩ := j
      simp only [List.length_set] at hj
      by_cases he1 : j = idx
      · subst he1
        rw [getD_set_self pts j _ _ hidx, getD_set_ne pts j (j + 1) _ _ (by omega)]
        exact dragNewX_le_next pts j px (by omega)
      · by_cases he2 : j + 1 = idx
        · rw [getD_set_ne pts idx j _ _ he1, he2, getD_set_self pts idx _ _ hidx]
          have := dragNewX_ge_prev pts idx px hs (by omega)
          have he : idx - 1 = j := by omega
          rw [he] at this
          exact this
        · rw [getD_set_ne pts idx j _ _ he1, getD_set_ne pts idx (j + 1) _ _ he2]
          exact hs ⟨j, by simpa using hj⟩
    · intro p hp
      rcases List.mem_or_eq_of_mem_set hp with hmem | rfl
      · exact hb p hmem
      · refine ⟨(dragNewX_bounds pts idx px hb hidx).1,
          (dragNewX_bounds pts idx px hb hidx).2, le_max_left _ _,
          max_le (by norm_num [Y_MIN, Y_MAX]) (min_le_left _ _)⟩

end Simulator2

/-- C2: every drag (`on_drag`, for any target index, lock state and proposed
coordinates) preserves the curve invariants — the point inputs remain
non-decreasing across all adjacent pairs, and every coordinate stays within
`[X_MIN, X_MAX] = [0, 1]` and `[Y_MIN, Y_MAX] = [0, 3]`. -/
theorem C2_drag_preserves_invariants (lock : Bool) (pts : List (ℚ × ℚ))
    (idx : Option ℕ) (px py : ℚ)
    (hs : Simulator2.sortedInputs pts) (hb : Simulator2.inBounds pts) :
    Simulator2.sortedInputs (Simulator2.on_drag lock pts idx px py) ∧
      Simulator2.inBounds (Simulator2.on_drag lock pts idx px py) := by
  match idx with
  | none => exact ⟨hs, hb⟩
  | some i =>
      simp only [Simulator2.on_drag]
      split_ifs with hcl
      · exact ⟨hs, hb⟩
      · exact Simulator2.on_drag_set_invariant pts i px py hs hb

/-- Witness for C2: dragging the middle point of the baseline curve far
outside the domain clamps it back inside and keeps the curve sorted. -/
theorem C2_drag_preserves_invariants_witness :
    (Simulator2.sortedInputs [((0.0 : ℚ), (0.0 : ℚ)), (0.5, 0.5), (1.0, 1.0)] ∧
      Simulator2.inBounds [((0.0 : ℚ), (0.0 : ℚ)), (0.5, 0.5), (1.0, 1.0)]) ∧
    (Simulator2.sortedInputs
        (Simulator2.on_drag false [(0.0, 0.0), (0.5, 0.5), (1.0, 1.0)] (some 1) 7 (-5)) ∧
      Simulator2.inBounds
        (Simulator2.on_drag false [(0.0, 0.0), (0.5, 0.5), (1.0, 1.0)] (some 1) 7 (-5))) := by
  have h1 : Simulator2.sortedInputs [((0.0 : ℚ), (0.0 : ℚ)), (0.5, 0.5), (1.0, 1.0)] := by
    intro i
    fin_cases i <;> norm_num
  have h2 : Simulator2.inBounds [((0.0 : ℚ), (0.0 : ℚ)), (0.5, 0.5), (1.0, 1.0)] := by
    intro p hp
    fin_cases hp <;>
      norm_num [Simulator2.X_MIN, Simulator2.X_MAX, Simulator2.Y_MIN, Simulator2.Y_MAX]
  exact ⟨⟨h1, h2⟩,
    C2_drag_preserves_invariants false [(0.0, 0.0), (0.5, 0.5), (1.0, 1.0)] (some 1) 7 (-5) h1 h2⟩

namespace Simulator2

theorem withinRadius_cons_zero (p : ℚ × ℚ) (rest : List (ℚ × ℚ)) (x y : ℚ) :
    withinRadius (p :: rest) 0 x y ↔
      ((to_canvas_coords p.1 p.2).1 - x) ^ 2 + ((to_canvas_coords p.1 p.2).2 - y) ^ 2
        ≤ POINT_RADIUS ^ 2 := by
  simp [withinRadius]

theorem withinRadius_cons_succ (p : ℚ × ℚ) (rest : List (ℚ × ℚ)) (i : ℕ) (x y : ℚ) :
    withinRadius (p :: rest) (i + 1) x y ↔ withinRadius rest i x y := by
  simp [withinRadius]

theorem find_nearby_aux_some_iff (x y : ℚ) :
    ∀ (pts : List (ℚ × ℚ)) (k m : ℕ),
      find_nearby_aux x y k pts = some m ↔
        ∃ i, m = k + i ∧ i < pts.length ∧ withinRadius pts i x y ∧
          ∀ j, j < i → ¬ withinRadius pts j x y := by
  intro pts
  induction pts with
  | nil => intro k m; simp [find_nearby_aux]
  | cons p rest ih =>
      intro k m
      by_cases hp : ((to_canvas_coords p.1 p.2).1 - x) ^ 2
          + ((to_canvas_coords p.1 p.2).2 - y) ^ 2 ≤ POINT_RADIUS ^ 2
      · simp only [find_nearby_aux]
        rw [if_pos hp]
        constructor
        · intro h
          have hm : m = k := by
            have := Option.some.inj h
            omega
          subst hm
          refine ⟨0, by omega, by simp, (withinRadius_cons_zero p rest x y).mpr hp,
            fun j hj => absurd hj (Nat.not_lt_zero j)⟩
        · rintro ⟨i, rfl, hi, hw, hmin⟩
          cases i with
          | zero => simp
          | succ i =>
              exact absurd ((withinRadius_cons_zero p rest x y).mpr hp)
                (hmin 0 (by omega))
      · simp only [find_nearby_aux]
        rw [if_neg hp, ih (k + 1) m]
        constructor
        · rintro ⟨i, rfl, hi, hw, hmin⟩
          refine ⟨i + 1, by omega, by simp only [List.length_cons]; omega,
            (withinRadius_cons_succ p rest i x y).mpr hw, ?_⟩
          intro j hj
          cases j with
          | zero => rw [withinRadius_cons_zero]; exact hp
          | succ j =>
              rw [withinRadius_cons_succ]
              exact hmin j (by omega)
        · rintro ⟨i, he, hi, hw, hmin⟩
          cases i with
          | zero =>
              exact absurd ((withinRadius_cons_zero p rest x y).mp hw) hp
          | succ i =>
              refine ⟨i, by omega, by simp only [List.length_cons] at hi; omega,
                (withinRadius_cons_succ p rest i x y).mp hw, ?_⟩
              intro j hj
              have := hmin (j + 1) (by omega)
              rwa [withinRadius_cons_succ] at this

theorem find_nearby_aux_none_iff (x y : ℚ) :
    ∀ (pts : List (ℚ × ℚ)) (k : ℕ),
      find_nearby_aux x y k pts = none ↔
        ∀ j, j < pts.length → ¬ withinRadius pts j x y := by
  intro pts
  induction pts with
  | nil => intro k; simp [find_nearby_aux]
  | cons p rest ih =>
      intro k
      by_cases hp : ((to_canvas_coords p.1 p.2).1 - x) ^ 2
          + ((to_canvas_coords p.1 p.2).2 - y) ^ 2 ≤ POINT_RADIUS ^ 2
      · simp only [find_nearby_aux]
        rw [if_pos hp]
        constructor
        · intro h; cases h
        · intro h
          exact absurd ((withinRadius_cons_zero p rest x y).mpr hp)
            (h 0 (by simp))
      · simp only [find_nearby_aux]
        rw [if_neg hp, ih (k + 1)]
        constructor
        · intro h j hj
          cases j with
          | zero => rw [withinRadius_cons_zero]; exact hp
          | succ j =>
              rw [withinRadius_cons_succ]
              exact h j (by simp only [List.length_cons] at hj; omega)
        · intro h j hj
          have := h (j + 1) (by simp only [List.length_cons]; omega)
          rwa [withinRadius_cons_succ] at this

end Simulator2

/-- C8: `find_nearby_point` returns `some i` exactly when point `i`'s
rendered position is within `POINT_RADIUS` of the query position and no point
of smaller index is (so the lowest index wins every tie, including a query
exactly between two overlapping points), and returns `none` exactly when no
point is within the radius. -/
theorem C8_hit_test (pts : List (ℚ × ℚ)) (qx qy : ℚ) :
    (∀ i, Simulator2.find_nearby_point pts qx qy = some i ↔
      i < pts.length ∧ Simulator2.withinRadius pts i qx qy ∧
        ∀ j, j < i → ¬ Simulator2.withinRadius pts j qx qy) ∧
    (Simulator2.find_nearby_point pts qx qy = none ↔
      ∀ j, j < pts.length → ¬ Simulator2.withinRadius pts j qx qy) := by
  constructor
  · intro i
    rw [Simulator2.find_nearby_point, Simulator2.find_nearby_aux_some_iff]
    constructor
    · rintro ⟨i', he, hi, hw, hmin⟩
      obtain rfl : i = i' := by omega
      exact ⟨hi, hw, hmin⟩
    · rintro ⟨hi, hw, hmin⟩
      exact ⟨i, by omega, hi, hw, hmin⟩
  · rw [Simulator2.find_nearby_point, Simulator2.find_nearby_aux_none_iff]

namespace Simulator2

theorem insertStable_append_le (key : List Char → ℕ) (a : List Char)
    (xs ys : List (List Char)) (h : ∀ x ∈ xs, key x ≤ key a) :
    insertStable key a (xs ++ ys) = xs ++ insertStable key a ys := by
  induction xs with
  | nil => simp
  | cons b t ih =>
      simp only [List.cons_append, insertStable, List.append_eq]
      rw [if_pos (h b (List.mem_cons_self b t)),
        ih (fun x hx => h x (List.mem_cons_of_mem b hx))]

theorem insertStable_all_gt (key : List Char → ℕ) (a : List Char)
    (ys : List (List Char)) (h : ∀ y ∈ ys, key a < key y) :
    insertStable key a ys = a :: ys := by
  cases ys with
  | nil => rfl
  | cons b t =>
      simp only [insertStable]
      rw [if_neg (not_le.mpr (h b (List.mem_cons_self b t)))]

theorem sortStable_append_singleton (key : List Char → ℕ)
    (l : List (List Char)) (a : List Char) :
    sortStable key (l ++ [a]) = insertStable key a (sortStable key l) := by
  simp [sortStable, List.foldl_append]

theorem sortStable_bucket (key : List Char → ℕ)
    (hk : ∀ d, key d = 1 ∨ key d = 2 ∨ key d = 3 ∨ key d = 100) :
    ∀ l : List (List Char), sortStable key l =
      (l.filter (fun d => key d == 1)) ++ (l.filter (fun d => key d == 2))
        ++ (l.filter (fun d => key d == 3)) ++ (l.filter (fun d => key d == 100)) := by
  intro l
  induction l using List.reverseRecOn with
  | nil => simp [sortStable]
  | append_singleton t a ih =>
      rw [sortStable_append_singleton, ih]
      have hm1 : ∀ x ∈ t.filter (fun d => key d == 1), key x = 1 := by
        intro x hx
        simpa using (List.mem_filter.mp hx).2
      have hm2 : ∀ x ∈ t.filter (fun d => key d == 2), key x = 2 := by
        intro x hx
        simpa using (List.mem_filter.mp hx).2
      have hm3 : ∀ x ∈ t.filter (fun d => key d == 3), key x = 3 := by
        intro x hx
        simpa using (List.mem_filter.mp hx).2
      have hm4 : ∀ x ∈ t.filter (fun d => key d == 100), key x = 100 := by
        intro x hx
        simpa using (List.mem_filter.mp hx).2
      rcases hk a with h | h | h | h
      · rw [List.append_assoc, List.append_assoc,
          insertStable_append_le key a _ _ (fun x hx => by rw [hm1 x hx, h]),
          insertStable_all_gt key a _ (fun y hy => by
            rcases List.mem_append.mp hy with hy1 | hy2
            · rw [hm2 y hy1, h]; omega
            · rcases List.mem_append.mp hy2 with hy3 | hy4
              · rw [hm3 y hy3, h]; omega
              · rw [hm4 y hy4, h]; omega)]
        simp [List.filter_append, h, List.append_assoc]
      · rw [List.append_assoc (t.filter (fun d => key d == 1) ++ t.filter (fun d => key d == 2)),
          insertStable_append_le key a _ _ (fun x hx => by
            rcases List.mem_append.mp hx with hx1 | hx2
            · rw [hm1 x hx1, h]; omega
            · rw [hm2 x hx2, h]),
          insertStable_all_gt key a _ (fun y hy => by
            rcases List.mem_append.mp hy with hy3 | hy4
            · rw [hm3 y hy3, h]; omega
            · rw [hm4 y hy4, h]; omega)]
        simp [List.filter_append, h, List.append_assoc]
      · rw [insertStable_append_le key a _ _ (fun x hx => by
            rcases List.mem_append.mp hx with hx12 | hx3
            · rcases List.mem_append.mp hx12 with hx1 | hx2
              · rw [hm1 x hx1, h]; omega
              · rw [hm2 x hx2, h]; omega
            · rw [hm3 x hx3, h]),
          insertStable_all_gt key a _ (fun y hy => by rw [hm4 y hy, h]; omega)]
        simp [List.filter_append, h, List.append_assoc]
      · rw [show (t.filter (fun d => key d == 1) ++ t.filter (fun d => key d == 2)
              ++ t.filter (fun d => key d == 3) ++ t.filter (fun d => key d == 100))
            = (t.filter (fun d => key d == 1) ++ t.filter (fun d => key d == 2)
              ++ t.filter (fun d => key d == 3) ++ t.filter (fun d => key d == 100)) ++ []
            from by simp,
          insertStable_append_le key a _ _ (fun x hx => by
            rcases List.mem_append.mp hx with hx123 | hx4
            · rcases List.mem_append.mp hx123 with hx12 | hx3
              · rcases List.mem_append.mp hx12 with hx1 | hx2
                · rw [hm1 x hx1, h]; omega
                · rw [hm2 x hx2, h]; omega
              · rw [hm3 x hx3, h]; omega
            · rw [hm4 x hx4, h])]
        simp [insertStable, List.filter_append, h, List.append_assoc]

theorem device_priority_cases (d : List Char) :
    device_priority d = 1 ∨ device_priority d = 2 ∨ device_priority d = 3 ∨
      device_priority d = 100 := by
  unfold device_priority
  split_ifs <;> simp

end Simulator2

/-- C9: `get_pointer_devices` keeps exactly the device names containing
`"mouse"` or `"touchpad"` case-insensitively, and orders them by priority
class — first-match class `"usb"`, then `"mouse"`, then `"optical"`, then
everything else — keeping names of the same class in their original relative
order (the result is the concatenation of the class-filtered sublists of the
kept names, in class order). -/
theorem C9_device_ordering (devices : List (List Char)) :
    (∀ d, d ∈ Simulator2.get_pointer_devices devices ↔
        d ∈ devices ∧ Simulator2.isPointerDevice d = true) ∧
    Simulator2.get_pointer_devices devices =
      ((devices.filter (fun d => Simulator2.isPointerDevice d)).filter
          (fun d => Simulator2.device_priority d == 1))
        ++ ((devices.filter (fun d => Simulator2.isPointerDevice d)).filter
          (fun d => Simulator2.device_priority d == 2))
        ++ ((devices.filter (fun d => Simulator2.isPointerDevice d)).filter
          (fun d => Simulator2.device_priority d == 3))
        ++ ((devices.filter (fun d => Simulator2.isPointerDevice d)).filter
          (fun d => Simulator2.device_priority d == 100)) := by
  have hbucket := Simulator2.sortStable_bucket Simulator2.device_priority
    Simulator2.device_priority_cases (devices.filter (fun d => Simulator2.isPointerDevice d))
  constructor
  · intro d
    rw [Simulator2.get_pointer_devices, hbucket]
    simp only [List.mem_append, List.mem_filter]
    constructor
    · intro hmem
      rcases hmem with ((hc | hc) | hc) | hc <;> exact hc.1
    · rintro ⟨h1, h2⟩
      rcases Simulator2.device_priority_cases d with h | h | h | h
      · exact Or.inl (Or.inl (Or.inl ⟨⟨h1, h2⟩, by simp [h]⟩))
      · exact Or.inl (Or.inl (Or.inr ⟨⟨h1, h2⟩, by simp [h]⟩))
      · exact Or.inl (Or.inr ⟨⟨h1, h2⟩, by simp [h]⟩)
      · exact Or.inr ⟨⟨h1, h2⟩, by simp [h]⟩
  · rw [Simulator2.get_pointer_devices, hbucket]
